import Mathlib

/-!
Verification of the staged expression-graph walker and root registry of the
`expr` package (file `expr/root.go`).

The Go source is shallowly embedded: Go slices become `List`, nil-able
pointers become `Option`, the heterogeneous `eval.ExpressionSet` becomes a
list over a closed sum of node kinds, and the stateful walk callback becomes
an explicit state-passing function.  Types that the file uses but that are
declared elsewhere in the repository (`APIExpr`, the transport service
expressions, `eval.ValidationErrors`, ...) are modelled from the spec, as
noted on each definition.
-/

/-- A method node.  Only its identity matters here. -/
structure MethodExpr where
  name : String
deriving DecidableEq, Repr

/-- An error node (`ErrorExpr`), identified by its name. -/
structure ErrorExpr where
  name : String
deriving DecidableEq, Repr

/-- A security scheme node (`SchemeExpr`). -/
structure SchemeExpr where
  name : String
deriving DecidableEq, Repr

/-- Modelled from the spec: a server configuration carrying a URL string,
referenced by `HTTPSchemes`. -/
structure ServerExpr where
  URL : String
deriving DecidableEq, Repr

/-- The structural attribute node underlying a user type; its internal
structure is irrelevant to the claims, only its identity is kept. -/
structure AttributeExpr where
  id : Nat
deriving DecidableEq, Repr

/-- A user type: a named type definition with an underlying structural
attribute; the field embeds the `Attribute()` accessor of the source. -/
structure UserTypeExpr where
  name : String
  Attribute : AttributeExpr
deriving DecidableEq, Repr

/-- A result type: a user type together with a deduplication identifier. -/
structure ResultTypeExpr where
  ut : UserTypeExpr
  Identifier : String
deriving DecidableEq, Repr

/-- Modelled from the spec: an HTTP file server node. -/
structure FileServerExpr where
  path : String
deriving DecidableEq, Repr

/-- Modelled from the spec: an HTTP endpoint node. -/
structure HTTPEndpointExpr where
  name : String
deriving DecidableEq, Repr

/-- Modelled from the spec: a gRPC endpoint node. -/
structure GRPCEndpointExpr where
  name : String
deriving DecidableEq, Repr

/-- Modelled from the spec: an HTTP transport service node: a name, an
optional parent service name (the empty string, the Go zero value, meaning
no parent), endpoints and file servers. -/
structure HTTPServiceExpr where
  name : String
  ParentName : String
  HTTPEndpoints : List HTTPEndpointExpr
  FileServers : List FileServerExpr
deriving DecidableEq, Repr

/-- Modelled from the spec: a gRPC transport service node. -/
structure GRPCServiceExpr where
  name : String
  ParentName : String
  GRPCEndpoints : List GRPCEndpointExpr
deriving DecidableEq, Repr

/-- Modelled from the spec: the HTTP part of the API metadata, holding the
ordered HTTP transport service sequence. -/
structure HTTPExpr where
  Services : List HTTPServiceExpr
deriving DecidableEq, Repr

/-- Modelled from the spec: the gRPC part of the API metadata. -/
structure GRPCExpr where
  Services : List GRPCServiceExpr
deriving DecidableEq, Repr

/-- Modelled from the spec: the API metadata node, holding the server
configurations and the per-transport bindings. -/
structure APIExpr where
  name : String
  Servers : List ServerExpr
  HTTP : HTTPExpr
  GRPC : GRPCExpr
deriving DecidableEq, Repr

/-- A service node: a name and an ordered method sequence. -/
structure ServiceExpr where
  Name : String
  Methods : List MethodExpr
deriving DecidableEq, Repr

/-- A user-to-external type mapping (`TypeMap`).  The external side is kept
abstract as a string tag. -/
structure TypeMap where
  User : UserTypeExpr
  External : String
deriving DecidableEq, Repr

/-- `MetaExpr`, a map from keys to value lists, modelled as an association
list. -/
abbrev MetaExpr : Type := List (String × List String)

/-- The closed sum of node kinds that can appear in a walk batch.  The Go
source uses the dynamic `eval.Expression` interface; the batches built by
`WalkSets` only ever contain these ten kinds. -/
inductive Expression where
  | api (a : APIExpr)
  | attr (a : AttributeExpr)
  | resultType (m : ResultTypeExpr)
  | service (s : ServiceExpr)
  | method (m : MethodExpr)
  | httpService (s : HTTPServiceExpr)
  | httpEndpoint (e : HTTPEndpointExpr)
  | fileServer (f : FileServerExpr)
  | grpcService (s : GRPCServiceExpr)
  | grpcEndpoint (e : GRPCEndpointExpr)
deriving DecidableEq, Repr

/-- `eval.ExpressionSet`: one batch of nodes handed to the walk callback. -/
abbrev ExpressionSet : Type := List Expression

/-- `RootExpr`: the root registry.  `API` is a nil-able pointer in Go, hence
an `Option`; `GeneratedTypes` holds result types (the source casts its
elements to `*ResultTypeExpr`). -/
structure RootExpr where
  API : Option APIExpr
  Services : List ServiceExpr
  Errors : List ErrorExpr
  Types : List UserTypeExpr
  ResultTypes : List ResultTypeExpr
  GeneratedTypes : List ResultTypeExpr
  Conversions : List TypeMap
  Creations : List TypeMap
  Schemes : List SchemeExpr
  Meta : MetaExpr
deriving DecidableEq, Repr

/-- Modelled from the spec: `NewAPIExpr(name, func() {})` (declared outside
the given file) creates an empty default API metadata node with the given
name and empty collections. -/
def NewAPIExpr (name : String) : APIExpr :=
  { name := name, Servers := [], HTTP := ⟨[]⟩, GRPC := ⟨[]⟩ }

/-- The inner loop of the insertion sort used by Go sort.SliceStable:
`x` is the element being inserted and the list argument is the already
processed prefix in reversed order; `x` moves left past each predecessor
`y` while `less x y` holds. -/
def insertStep (less : α → α → Bool) (x : α) : List α → List α
  | [] => [x]
  | y :: rl => if less x y then y :: insertStep less x rl else x :: y :: rl

/-- Go `sort.SliceStable`.  For slices of at most 20 elements (its block
size) the Go implementation performs exactly one insertion sort over the
whole slice, which is what this definition expresses; above that size Go
insertion sorts 20-element blocks and merges them with `symMerge`, an
additional phase that also only permutes the slice.  Every slice this
development reasons about exactly is within the 20-element regime; the
theorems that quantify over arbitrary slices only use that the result is a
permutation, which holds for both regimes. -/
def sortSliceStable (less : α → α → Bool) (l : List α) : List α :=
  (l.foldl (fun racc x => insertStep less x racc) []).reverse

/-- The comparison closure passed to `sort.SliceStable` for HTTP services:
`less(i, j)` holds when the service at `j` names the service at `i` as its
parent. -/
def httpLess (x y : HTTPServiceExpr) : Bool :=
  if y.ParentName = x.name then true else false

/-- The comparison closure passed to `sort.SliceStable` for gRPC services. -/
def grpcLess (x y : GRPCServiceExpr) : Bool :=
  if y.ParentName = x.name then true else false

/-- `WalkSets`: presents the ten stage batches to the callback `walk` in
order, threading the callback state of type `σ` explicitly; the returned
registry reflects the two in-place mutations the source performs (lazy
creation of the default API node, and the in-place stable sorts of the two
transport service sequences).  The Go loop that builds `services` and
`methods` together is embedded as one map and one fold over the same list;
likewise for the loop over the sorted HTTP services.  The gRPC endpoint
accumulation reproduces the source verbatim: each iteration executes
`grpcms = append(endpoints, e)`, discarding the previous `grpcms` and
extending the HTTP `endpoints` accumulator instead of `grpcms`. -/
def WalkSets {σ : Type} (walk : ExpressionSet → σ → σ) (r : RootExpr) (s0 : σ) :
    RootExpr × σ :=
  let api := match r.API with
    | none => NewAPIExpr "API"
    | some a => a
  let s1 := walk [Expression.api api] s0
  let types : ExpressionSet := r.Types.map (fun t => Expression.attr t.Attribute)
  let s2 := walk types s1
  let mtypes : ExpressionSet := r.ResultTypes.map Expression.resultType
  let s3 := walk mtypes s2
  let services : ExpressionSet := r.Services.map Expression.service
  let methods : ExpressionSet :=
    r.Services.foldl (fun ms sv => ms ++ sv.Methods.map Expression.method) []
  let s4 := walk services s3
  let s5 := walk methods s4
  let httpSorted := sortSliceStable httpLess api.HTTP.Services
  let httpsvcs : ExpressionSet := httpSorted.map Expression.httpService
  let endpoints : ExpressionSet :=
    httpSorted.foldl (fun es svc => es ++ svc.HTTPEndpoints.map Expression.httpEndpoint) []
  let servers : ExpressionSet :=
    httpSorted.foldl (fun fs svc => fs ++ svc.FileServers.map Expression.fileServer) []
  let s6 := walk httpsvcs s5
  let s7 := walk endpoints s6
  let s8 := walk servers s7
  let grpcSorted := sortSliceStable grpcLess api.GRPC.Services
  let grpcsvcs : ExpressionSet := grpcSorted.map Expression.grpcService
  let grpcms : ExpressionSet :=
    grpcSorted.foldl
      (fun acc svc =>
        svc.GRPCEndpoints.foldl (fun _ e => endpoints ++ [Expression.grpcEndpoint e]) acc)
      []
  let s9 := walk grpcsvcs s8
  let s10 := walk grpcms s9
  ({ r with API := some { api with HTTP := ⟨httpSorted⟩, GRPC := ⟨grpcSorted⟩ } }, s10)

/-- The ten batches a walk presents, in presentation order; obtained by
running `WalkSets` with a callback that records every batch it is handed. -/
def walkSetsBatches (r : RootExpr) : List ExpressionSet :=
  (WalkSets (fun b bs => bs ++ [b]) r []).2

/-- `UserType(name)`: scan the user type collection, then the result type
collection, returning the first node whose name matches; `none` embeds the
Go nil return.  The two Go for-loops with early return are embedded as two
sequential first-match scans. -/
def RootExpr.UserType (r : RootExpr) (name : String) :
    Option (UserTypeExpr ⊕ ResultTypeExpr) :=
  match r.Types.find? (fun t => t.name = name) with
  | some t => some (Sum.inl t)
  | none =>
    match r.ResultTypes.find? (fun t => t.ut.name = name) with
    | some t => some (Sum.inr t)
    | none => none

/-- `GeneratedResultType(id)`: scan the generated types for a result type
with the matching identifier. -/
def RootExpr.GeneratedResultType (r : RootExpr) (id : String) :
    Option ResultTypeExpr :=
  r.GeneratedTypes.find? (fun mt => mt.Identifier = id)

/-- `Service(name)`: first-match-by-name scan of the service sequence. -/
def RootExpr.Service (r : RootExpr) (name : String) : Option ServiceExpr :=
  r.Services.find? (fun s => s.Name = name)

/-- `Error(name)`: first-match-by-name scan of the error sequence. -/
def RootExpr.Error (r : RootExpr) (name : String) : Option ErrorExpr :=
  r.Errors.find? (fun e => e.name = name)

/-- `EvalName()`: the diagnostic name of the registry. -/
def RootExpr.EvalName (_ : RootExpr) : String := "design"

/-- Modelled from the spec: the success predicate of net/url Parse (Go
standard library, an external collaborator).  Parse accepts the URL shapes
relevant here and rejects exactly the raw URLs containing an ASCII control
character; the parsed scheme value is irrelevant below because the source
only dereferences the parse result on the error path, where it is nil. -/
def urlParseOk (s : String) : Bool :=
  s.toList.all (fun c => decide (31 < c.toNat) && decide (c.toNat ≠ 127))

/-- `HTTPSchemes()`: iterate the server configurations of the API metadata,
and only when `url.Parse` FAILS (the inverted condition of the source) store
`u.Scheme` into the scheme set -- but on that path `u` is the nil pointer,
so the store dereferences nil and the call panics, embedded as `none`.
Dereferencing `r.API` when no API node is set also panics.  Consequently a
normal return always carries the empty scheme list (the source returns the
Go nil slice when the set is empty). -/
def RootExpr.HTTPSchemes (r : RootExpr) : Option (List String) :=
  match r.API with
  | none => none
  | some api =>
    (api.Servers.foldl
      (fun acc s =>
        acc.bind (fun schemes =>
          if urlParseOk s.URL then some schemes else none))
      (some ([] : List String))).map
      (fun schemes =>
        if schemes.isEmpty then [] else sortSliceStable (fun a b => a < b) schemes)

/-- A single entry of `eval.ValidationErrors`: the `EvalName` of the
offending node and a human readable message. -/
structure ValidationError where
  expr : String
  message : String
deriving DecidableEq, Repr

/-- Modelled from the spec: `eval.ValidationErrors` (declared in the eval
package, outside the given file) is a composite holding zero or more
validation failures; `Add` appends one failure naming the offending node,
and a composite with zero entries means no error. -/
abbrev ValidationErrors : Type := List ValidationError

/-- Modelled from the spec: the caller-side contract on the composite error
value returned by `Validate`: zero entries mean no error. -/
def ValidationErrors.isNoError (v : ValidationErrors) : Bool := v.isEmpty

/-- `Validate()`: start from the empty composite and add one failure naming
the registry when the API metadata node is nil. -/
def RootExpr.Validate (r : RootExpr) : ValidationErrors :=
  match r.API with
  | none => [{ expr := r.EvalName, message := "Missing API declaration" }]
  | some _ => []

/-- Go strings.Split with a one-character separator, over character lists:
splits around every occurrence of `sep`; the result always has at least one
element (the empty input yields one empty segment, as in Go). -/
def splitCh (sep : Char) : List Char → List (List Char)
  | [] => [[]]
  | c :: cs =>
    if c = sep then
      [] :: splitCh sep cs
    else
      match splitCh sep cs with
      | [] => [[c]]
      | h :: t => (c :: h) :: t

/-- `NameMap(encoded)`: split on the colon; the first segment is the
attribute name, and the element name is the second segment when the split
produced more than one, the attribute name otherwise.  Strings are embedded
as character lists; the empty-list case of the match is unreachable because
`splitCh` never returns an empty list. -/
def NameMap (encoded : List Char) : List Char × List Char :=
  match splitCh ':' encoded with
  | [] => ([], [])
  | [a] => (a, a)
  | a :: b :: _ => (a, b)

/-- The empty registry: no API node, all collections empty. -/
def emptyRoot : RootExpr :=
  { API := none, Services := [], Errors := [], Types := [], ResultTypes := [],
    GeneratedTypes := [], Conversions := [], Creations := [], Schemes := [], Meta := [] }

/-- An HTTP transport service H with one endpoint h1 and no parent. -/
def httpSvcH : HTTPServiceExpr :=
  { name := "H", ParentName := "", HTTPEndpoints := [{ name := "h1" }], FileServers := [] }

/-- A gRPC transport service G with one endpoint g1 and no parent. -/
def grpcSvcG : GRPCServiceExpr :=
  { name := "G", ParentName := "", GRPCEndpoints := [{ name := "g1" }] }

/-- A registry with one HTTP service carrying endpoint h1 and one gRPC
service carrying endpoint g1. -/
def rootC1 : RootExpr :=
  { emptyRoot with
    API := some { name := "API", Servers := [], HTTP := ⟨[httpSvcH]⟩, GRPC := ⟨[grpcSvcG]⟩ } }

/-- A parent HTTP transport service named A. -/
def httpSvcA : HTTPServiceExpr :=
  { name := "A", ParentName := "", HTTPEndpoints := [], FileServers := [] }

/-- A child HTTP transport service named B whose parent name is A. -/
def httpSvcB : HTTPServiceExpr :=
  { name := "B", ParentName := "A", HTTPEndpoints := [], FileServers := [] }

/-- An HTTP transport service named X unrelated to A and B. -/
def httpSvcX : HTTPServiceExpr :=
  { name := "X", ParentName := "", HTTPEndpoints := [], FileServers := [] }

/-- A parent gRPC transport service named P. -/
def grpcSvcP : GRPCServiceExpr :=
  { name := "P", ParentName := "", GRPCEndpoints := [] }

/-- A child gRPC transport service named C whose parent name is P. -/
def grpcSvcC : GRPCServiceExpr :=
  { name := "C", ParentName := "P", GRPCEndpoints := [] }

/-- A registry whose stored HTTP service order is child B before parent A. -/
def rootC2 : RootExpr :=
  { emptyRoot with
    API := some { name := "API", Servers := [], HTTP := ⟨[httpSvcB, httpSvcA]⟩, GRPC := ⟨[]⟩ } }

/-- A registry with one server whose URL parses successfully with scheme
https. -/
def rootC3 : RootExpr :=
  { emptyRoot with
    API := some { name := "API", Servers := [{ URL := "https://example.com" }],
                  HTTP := ⟨[]⟩, GRPC := ⟨[]⟩ } }

/-- A callback that counts how many batches it is presented and records a
failure on every batch it sees, the first one included. -/
def failingCountWalk : ExpressionSet → Nat × Bool → Nat × Bool :=
  fun _ st => (st.1 + 1, true)

/-- A registry whose stored HTTP service order is child B, unrelated X,
parent A. -/
def rootC5 : RootExpr :=
  { emptyRoot with
    API := some { name := "API", Servers := [],
                  HTTP := ⟨[httpSvcB, httpSvcX, httpSvcA]⟩, GRPC := ⟨[]⟩ } }

/-- A user type named a. -/
def utA : UserTypeExpr := { name := "a", Attribute := { id := 0 } }

/-- A result type whose underlying user type is named b. -/
def rtB : ResultTypeExpr :=
  { ut := { name := "b", Attribute := { id := 1 } }, Identifier := "application/b" }

/-- A registry with one user type named a and one result type named b. -/
def rootC9 : RootExpr := { emptyRoot with Types := [utA], ResultTypes := [rtB] }

/-- Inserting an element with `insertStep` only permutes. -/
theorem insertStep_perm (less : α → α → Bool) (x : α) (rl : List α) :
    (insertStep less x rl).Perm (x :: rl) := by
  induction rl with
  | nil => simp [insertStep]
  | cons y t ih =>
    simp only [insertStep]
    split
    · exact (ih.cons y).trans (List.Perm.swap x y t)
    · exact List.Perm.refl _

/-- The insertion fold of the stable sort only permutes. -/
theorem foldl_insertStep_perm (less : α → α → Bool) :
    ∀ (l racc : List α),
      (l.foldl (fun racc x => insertStep less x racc) racc).Perm (l ++ racc) := by
  intro l
  induction l with
  | nil => intro racc; simp
  | cons x t ih =>
    intro racc
    simp only [List.foldl_cons, List.cons_append]
    exact (ih _).trans ((List.Perm.append_left t (insertStep_perm less x racc)).trans
      List.perm_middle)

/-- The embedded stable sort returns a permutation of its input. -/
theorem sortSliceStable_perm (less : α → α → Bool) (l : List α) :
    (sortSliceStable less l).Perm l := by
  unfold sortSliceStable
  exact (List.reverse_perm _).trans ((foldl_insertStep_perm less l []).trans (by simp))

/-- A fold appending mapped segments equals the flattened map. -/
theorem foldl_append_map_flatten (f : β → List α) :
    ∀ (l : List β) (init : List α),
      l.foldl (fun acc x => acc ++ f x) init = init ++ (l.map f).flatten := by
  intro l
  induction l with
  | nil => intro init; simp
  | cons x t ih => intro init; simp [ih, List.append_assoc]

/-- C1: the batch presented at the gRPC endpoints stage (stage index 9) is
NOT the flattened gRPC endpoints: on the registry `rootC1` it is the HTTP
endpoints accumulator extended with the gRPC endpoint, because the source
executes `grpcms = append(endpoints, e)`.  This evaluates the code at the
failing input of the claim. -/
theorem grpcEndpoints_stage_contains_httpEndpoints :
    (walkSetsBatches rootC1).getD 9 [] =
      [Expression.httpEndpoint { name := "h1" }, Expression.grpcEndpoint { name := "g1" }] ∧
    ¬ (walkSetsBatches rootC1).getD 9 [] = [Expression.grpcEndpoint { name := "g1" }] := by
  decide

/-- C2 (counterexample): walking the registry `rootC2`, whose stored HTTP
service sequence is [B, A], reorders that stored sequence in place to
[A, B], so the walk does not leave the Root Registry unchanged. -/
theorem walkSets_reorders_httpServices :
    (WalkSets (fun _ s => s) rootC2 ()).1.API.map (fun a => a.HTTP.Services)
      = some [httpSvcA, httpSvcB] ∧
    ¬ some [httpSvcA, httpSvcB] = some [httpSvcB, httpSvcA] := by
  decide

/-- C2 (amended): for every registry and every callback, including failing
ones, the walk keeps the contents and order of every root collection and of
the API name and servers, lazily creates the default API node when none
exists, and keeps the contents of the HTTP and gRPC transport service
sequences as a permutation (they are stably re-sorted in place). -/
theorem walkSets_frame {σ : Type} (walk : ExpressionSet → σ → σ) (r : RootExpr) (s0 : σ) :
    (WalkSets walk r s0).1.Services = r.Services ∧
    (WalkSets walk r s0).1.Errors = r.Errors ∧
    (WalkSets walk r s0).1.Types = r.Types ∧
    (WalkSets walk r s0).1.ResultTypes = r.ResultTypes ∧
    (WalkSets walk r s0).1.GeneratedTypes = r.GeneratedTypes ∧
    (WalkSets walk r s0).1.Conversions = r.Conversions ∧
    (WalkSets walk r s0).1.Creations = r.Creations ∧
    (WalkSets walk r s0).1.Schemes = r.Schemes ∧
    (WalkSets walk r s0).1.Meta = r.Meta ∧
    ∃ api, (WalkSets walk r s0).1.API = some api ∧
      api.name = (r.API.getD (NewAPIExpr "API")).name ∧
      api.Servers = (r.API.getD (NewAPIExpr "API")).Servers ∧
      api.HTTP.Services.Perm (r.API.getD (NewAPIExpr "API")).HTTP.Services ∧
      api.GRPC.Services.Perm (r.API.getD (NewAPIExpr "API")).GRPC.Services := by
  obtain ⟨A, S, E, T, RT, GT, CV, CR, SC, M⟩ := r
  cases A with
  | none =>
    exact ⟨rfl, rfl, rfl, rfl, rfl, rfl, rfl, rfl, rfl, _, rfl, rfl, rfl,
      sortSliceStable_perm _ _, sortSliceStable_perm _ _⟩
  | some a =>
    exact ⟨rfl, rfl, rfl, rfl, rfl, rfl, rfl, rfl, rfl, _, rfl, rfl, rfl,
      sortSliceStable_perm _ _, sortSliceStable_perm _ _⟩

/-- C3: on the registry `rootC3`, whose single server URL parses
successfully with scheme https, `HTTPSchemes` returns the empty list
instead of the expected singleton, because the source only stores a scheme
when url.Parse FAILS (inverted condition).  This evaluates the code at the
failing input of the claim. -/
theorem httpSchemes_drops_valid_scheme :
    rootC3.HTTPSchemes = some [] ∧ ¬ some ([] : List String) = some ["https"] := by
  constructor
  · rfl
  · decide

/-- C4 (counterexample): a callback that fails already on the first batch
it is presented is nevertheless invoked on all ten stage batches of the
walk over `emptyRoot`, so later batches ARE presented after a failure. -/
theorem walkSets_no_failfast :
    (WalkSets failingCountWalk emptyRoot (0, false)).2.1 = 10 ∧ ¬ (10 : Nat) = 1 := by
  constructor
  · rfl
  · decide

/-- C4 (amended): for every registry and every callback, `WalkSets` folds
the callback over exactly the ten stage batches in the fixed stage order,
unconditionally: the batches presented do not depend on anything the
callback returns, so no fail-fast abortion happens inside `WalkSets`. -/
theorem walkSets_presents_all_batches {σ : Type} (walk : ExpressionSet → σ → σ)
    (r : RootExpr) (s0 : σ) :
    (WalkSets walk r s0).2 = (walkSetsBatches r).foldl (fun s b => walk b s) s0 ∧
    (walkSetsBatches r).length = 10 := by
  exact ⟨rfl, rfl⟩

/-- C5 (counterexample): on the registry `rootC5`, whose stored HTTP service
order is child B, unrelated X, parent A (a single-level hierarchy), the
single-pass stable sort leaves the batch order unchanged, so the parent A is
NOT placed before its child B. -/
theorem stableSort_single_pass_counterexample :
    (walkSetsBatches rootC5).getD 5 [] =
      [Expression.httpService httpSvcB, Expression.httpService httpSvcX,
        Expression.httpService httpSvcA] ∧
    ¬ ((walkSetsBatches rootC5).getD 5 []).indexOf (Expression.httpService httpSvcA) <
        ((walkSetsBatches rootC5).getD 5 []).indexOf (Expression.httpService httpSvcB) := by
  decide

/-- C5 (amended): for transport services A and B where the parent name of B
is the name of A and no other parent or child relation is present, the
stable sort places A before B for both initial orderings of the sequence
consisting of exactly A and B; the same holds for gRPC services G and H. -/
theorem stableSort_pair_parent_before_child
    (A B : HTTPServiceExpr) (G H : GRPCServiceExpr)
    (hB : B.ParentName = A.name) (hA : ¬ A.ParentName = B.name)
    (hH : H.ParentName = G.name) (hG : ¬ G.ParentName = H.name) :
    sortSliceStable httpLess [A, B] = [A, B] ∧
    sortSliceStable httpLess [B, A] = [A, B] ∧
    sortSliceStable grpcLess [G, H] = [G, H] ∧
    sortSliceStable grpcLess [H, G] = [G, H] := by
  refine ⟨?_, ?_, ?_, ?_⟩ <;>
    simp [sortSliceStable, insertStep, httpLess, grpcLess, hB, hA, hH, hG]

/-- Witness for the amended C5 theorem at the concrete parent and child
services A, B (HTTP) and P, C (gRPC). -/
theorem stableSort_pair_parent_before_child_witness :
    sortSliceStable httpLess [httpSvcA, httpSvcB] = [httpSvcA, httpSvcB] ∧
    sortSliceStable httpLess [httpSvcB, httpSvcA] = [httpSvcA, httpSvcB] ∧
    sortSliceStable grpcLess [grpcSvcP, grpcSvcC] = [grpcSvcP, grpcSvcC] ∧
    sortSliceStable grpcLess [grpcSvcC, grpcSvcP] = [grpcSvcP, grpcSvcC] :=
  stableSort_pair_parent_before_child httpSvcA httpSvcB grpcSvcP grpcSvcC
    (by decide) (by decide) (by decide) (by decide)

/-- C6: for every registry, the services stage batch (index 3) is presented
before the methods stage batch (index 4), and the methods batch is the
flattened concatenation of the method sequence of each service taken in the
registry order of the services. -/
theorem services_stage_precedes_methods_stage (r : RootExpr) :
    (walkSetsBatches r)[3]? = some (r.Services.map Expression.service) ∧
    (walkSetsBatches r)[4]? =
      some ((r.Services.map (fun s => s.Methods.map Expression.method)).flatten) := by
  refine ⟨rfl, ?_⟩
  show some (r.Services.foldl (fun ms sv => ms ++ sv.Methods.map Expression.method) []) = _
  rw [foldl_append_map_flatten]
  simp

/-- C7: for every registry without an API metadata node and every callback,
the walk creates the default API node first, the first batch presented is
exactly the one-element batch holding that node, and afterwards the API
metadata of the registry is set (never nil again). -/
theorem walk_creates_default_api {σ : Type} (r : RootExpr) (h : r.API = none)
    (walk : ExpressionSet → σ → σ) (s0 : σ) :
    (walkSetsBatches r)[0]? = some [Expression.api (NewAPIExpr "API")] ∧
    (WalkSets walk r s0).1.API = some (NewAPIExpr "API") ∧
    ((WalkSets walk r s0).1.API).isSome = true := by
  obtain ⟨A, S, E, T, RT, GT, CV, CR, SC, M⟩ := r
  simp only at h
  subst h
  exact ⟨rfl, rfl, rfl⟩

/-- Witness for C7 at the empty registry. -/
theorem walk_creates_default_api_witness :
    (walkSetsBatches emptyRoot)[0]? = some [Expression.api (NewAPIExpr "API")] ∧
    (WalkSets (fun (_ : ExpressionSet) (s : Unit) => s) emptyRoot ()).1.API
      = some (NewAPIExpr "API") ∧
    ((WalkSets (fun (_ : ExpressionSet) (s : Unit) => s) emptyRoot ()).1.API).isSome = true :=
  walk_creates_default_api emptyRoot rfl (fun _ s => s) ()

/-- C8: for every registry, `Validate` yields the empty composite when the
API metadata node is set, and exactly one failure naming the registry and
the missing API declaration when it is not; the composite counts as no
error exactly when it has zero entries, which holds exactly when the API
node is set. -/
theorem validate_characterization (r : RootExpr) :
    (r.API.isSome = true → r.Validate = []) ∧
    (r.API = none →
      r.Validate = [{ expr := r.EvalName, message := "Missing API declaration" }]) ∧
    (ValidationErrors.isNoError r.Validate = true ↔ r.API.isSome = true) := by
  cases hr : r.API with
  | none =>
    simp [RootExpr.Validate, hr, ValidationErrors.isNoError, RootExpr.EvalName]
  | some a =>
    simp [RootExpr.Validate, hr, ValidationErrors.isNoError]

/-- Witness for C8: a registry with the API node set validates with zero
failures, and one without yields exactly the failure naming the missing API
declaration. -/
theorem validate_characterization_witness :
    rootC3.Validate = [] ∧
    emptyRoot.Validate = [{ expr := "design", message := "Missing API declaration" }] :=
  ⟨(validate_characterization rootC3).1 rfl,
    (validate_characterization emptyRoot).2.1 rfl⟩

/-- C9: for every registry and name, the lookup returns none exactly when
neither the user type collection nor the result type collection holds a
node with that name; a user type result is the first match in the user type
collection; and a result type result means the user type collection has no
match and the node is the first match in the result type collection. -/
theorem userType_lookup_characterization (r : RootExpr) (name : String) :
    (r.UserType name = none ↔
      ((∀ t ∈ r.Types, ¬ t.name = name) ∧ (∀ t ∈ r.ResultTypes, ¬ t.ut.name = name))) ∧
    (∀ t, r.UserType name = some (Sum.inl t) →
      t.name = name ∧ ∃ pre post, r.Types = pre ++ t :: post ∧ ∀ u ∈ pre, ¬ u.name = name) ∧
    (∀ mt, r.UserType name = some (Sum.inr mt) →
      mt.ut.name = name ∧ (∀ t ∈ r.Types, ¬ t.name = name) ∧
      ∃ pre post, r.ResultTypes = pre ++ mt :: post ∧ ∀ u ∈ pre, ¬ u.ut.name = name) := by
  unfold RootExpr.UserType
  cases h1 : r.Types.find? (fun t => t.name = name) with
  | some t =>
    obtain ⟨hp, pre, post, heq, hpre⟩ := List.find?_eq_some.mp h1
    have hmem : t ∈ r.Types := by
      rw [heq]
      exact List.mem_append.mpr (Or.inr (List.mem_cons_self t post))
    refine ⟨iff_of_false (by simp) ?_, ?_, by simp⟩
    · rintro ⟨hT, _⟩
      exact hT t hmem (by simpa using hp)
    · intro u hu
      obtain rfl : t = u := by simpa using hu
      refine ⟨by simpa using hp, pre, post, heq, ?_⟩
      intro v hv
      simpa using hpre v hv
  | none =>
    have hTypes : ∀ t ∈ r.Types, ¬ t.name = name := by
      intro t ht
      have := List.find?_eq_none.mp h1 t ht
      simpa using this
    cases h2 : r.ResultTypes.find? (fun t => t.ut.name = name) with
    | some mt =>
      obtain ⟨hp, pre, post, heq, hpre⟩ := List.find?_eq_some.mp h2
      have hmem : mt ∈ r.ResultTypes := by
        rw [heq]
        exact List.mem_append.mpr (Or.inr (List.mem_cons_self mt post))
      refine ⟨iff_of_false (by simp) ?_, by simp, ?_⟩
      · rintro ⟨_, hRT⟩
        exact hRT mt hmem (by simpa using hp)
      · intro u hu
        obtain rfl : mt = u := by simpa using hu
        refine ⟨by simpa using hp, hTypes, pre, post, heq, ?_⟩
        intro v hv
        simpa using hpre v hv
    | none =>
      have hRT : ∀ t ∈ r.ResultTypes, ¬ t.ut.name = name := by
        intro t ht
        have := List.find?_eq_none.mp h2 t ht
        simpa using this
      exact ⟨by simpa using ⟨hTypes, hRT⟩, by simp, by simp⟩

/-- Witness for C9: looking up b in `rootC9` misses the user type
collection and returns the result type named b, the first (and only) match
of the result type collection. -/
theorem userType_lookup_characterization_witness :
    rtB.ut.name = "b" ∧ (∀ t ∈ rootC9.Types, ¬ t.name = "b") ∧
    ∃ pre post, rootC9.ResultTypes = pre ++ rtB :: post ∧ ∀ u ∈ pre, ¬ u.ut.name = "b" :=
  (userType_lookup_characterization rootC9 "b").2.2 rtB rfl

/-- The result of splitting is the segment before the first separator
followed by the split of what comes after it, when the separator occurs. -/
theorem splitCh_eq_cons (sep : Char) (l : List Char) :
    splitCh sep l =
      l.takeWhile (fun c => c ≠ sep) ::
        (if sep ∈ l then splitCh sep ((l.dropWhile (fun c => c ≠ sep)).tail) else []) := by
  induction l with
  | nil => simp [splitCh]
  | cons c cs ih =>
    by_cases hc : c = sep
    · subst hc
      simp [splitCh, List.takeWhile_cons, List.dropWhile_cons]
    · rw [List.takeWhile_cons, List.dropWhile_cons]
      simp only [splitCh, hc, ih, if_neg hc, List.mem_cons, decide_eq_true_eq]
      simp [hc, Ne.symm hc]

/-- C10: for every input, the first component of `NameMap` is the segment
before the first colon (the whole input when no colon occurs); the second
component equals the first when no colon occurs, and otherwise is the
segment between the first and the second colon, not the whole remainder
after the first colon. -/
theorem nameMap_characterization (l : List Char) :
    (NameMap l).1 = l.takeWhile (fun c => c ≠ ':') ∧
    (NameMap l).2 = if ':' ∈ l
      then ((l.dropWhile (fun c => c ≠ ':')).tail).takeWhile (fun c => c ≠ ':')
      else l := by
  unfold NameMap
  by_cases hm : (':' : Char) ∈ l
  · rw [splitCh_eq_cons, if_pos hm, splitCh_eq_cons]
    simp [hm]
  · rw [splitCh_eq_cons, if_neg hm]
    constructor
    · simp
    · simp only [if_neg hm]
      exact List.takeWhile_eq_self_iff.mpr (by
        intro x hx
        simp only [ne_eq, decide_eq_true_eq]
        intro h
        exact hm (h ▸ hx))
